import Mathlib

/-!
Shallow embedding of `plex_watch_history/__main__.py`.

The script has five behaviourally relevant functions, embedded below with
their source names:

* `plex_format` — pure display formatter over a metadata item;
* `community_query` — retry wrapper around one network call;
* `get_watch_history` — cursor-paginated generator over watch-history nodes;
* `remove_watch_history` — delete-one with a bounded retry loop;
* `delete_watch_history` — delete-all: re-fetch the whole history, delete
  each entry, repeat until a fetch yields no entries.

Network effects are modelled by passing the backend in explicitly: an
attempt stream `Nat → QueryOut R` for `community_query` (one outcome per
attempt: an exception, a falsy response, or a truthy response), and a
fetch function for the pagination loops.  Unbounded `while True:` loops
are embedded with an explicit fuel argument; returning `none` means the
fuel ran out, so statements about terminating runs supply enough fuel and
non-termination is expressed as `none` for every fuel.
-/

/-- Python rendering of an optional (nullable) integer field inside an
f-string: `None` prints as the string "None", an integer as its decimal
form (matching Python `str`). -/
def pyOptIntStr : Option Int → String
  | none => "None"
  | some n => toString n

/-- Python `f"{n:2d}"`: the decimal form of `n`, right-aligned to width 2
with spaces. -/
def pyFmt2d (n : Int) : String :=
  String.mk (List.replicate (2 - (toString n).length) ' ') ++ toString n

/-- Python `str.lower()` (ASCII lowering, which is all the item types use):
lowers each character of the string in place. -/
def pyLower (s : String) : String :=
  String.mk (s.data.map Char.toLower)

/-- The fields of a `parent`/`grandparent` object that `plex_format` reads.
Both are nullable in the GraphQL response (`Option String` / `Option Int`
model present-but-null values). -/
structure ParentItem where
  title : Option String
  index : Option Int

/-- The fields of `metadataItem` that `plex_format` reads.  `title` and
`type` are non-null in the GraphQL schema; `year`, `index`, `parent` and
`grandparent` are nullable. -/
structure MetadataItem where
  type : String
  title : String
  year : Option Int
  index : Option Int
  parent : Option ParentItem
  grandparent : Option ParentItem

/-- `item.get("parent", {})` yields an empty dict when the parent is
absent; an empty dict's `.get` calls then all return their defaults, which
is what `ParentItem` with both fields `none` produces. -/
def emptyParent : ParentItem := ⟨none, none⟩

/-- Embedding of `plex_format(item)`.  Returns `none` exactly where the
Python raises: the episode branch formats `item['index']` with `:2d`,
which is a `TypeError` when the index is null.  All other branches render
null fields the way an f-string renders `None`. -/
def plex_format (item : MetadataItem) : Option String :=
  let item_type := pyLower item.type
  let parent := item.parent.getD emptyParent
  let grandparent := item.grandparent.getD emptyParent
  if item_type = "season" then
    some (parent.title.getD "Unknown" ++ ": Season " ++ pyOptIntStr item.index)
  else if item_type = "episode" then
    match item.index with
    | none => none
    | some i =>
      some (grandparent.title.getD "Unknown" ++ ": Season " ++ pyOptIntStr parent.index
        ++ ": Episode " ++ pyFmt2d i ++ " - " ++ item.title)
  else
    some (item.title ++ " (" ++ pyOptIntStr item.year ++ ")")

/-- The movie item of the spec's worked example. -/
def upMovie : MetadataItem :=
  ⟨"movie", "Up", some 2009, none, none, none⟩

/-- A fully populated episode item used to test the episode branch.  Its
parent (the season) carries a title that shares no text with any other
field, so whether the output contains the parent's title is observable. -/
def pilotEpisode : MetadataItem :=
  ⟨"episode", "Pilot", none, some 1, some ⟨some "Qzx", some 2⟩, some ⟨some "Show", none⟩⟩

/-- Executable substring test on character lists: `occursIn p l` is true
iff `p` occurs contiguously inside `l`. -/
def occursIn (p : List Char) : List Char → Bool
  | [] => p.isEmpty
  | c :: rest => decide ((c :: rest).take p.length = p) || occursIn p rest

/-- `occursIn` decides exactly the substring relation. -/
lemma occursIn_iff (p l : List Char) :
    occursIn p l = true ↔ ∃ u v, l = u ++ p ++ v := by
  induction l with
  | nil =>
    simp only [occursIn, List.isEmpty_iff]
    constructor
    · rintro rfl; exact ⟨[], [], rfl⟩
    · rintro ⟨u, v, h⟩
      rcases List.append_eq_nil.mp ((List.append_eq_nil).mp h.symm).1 with ⟨-, h2⟩
      exact h2
  | cons c rest ih =>
    simp only [occursIn, Bool.or_eq_true, decide_eq_true_eq, ih]
    constructor
    · rintro (htake | ⟨u, v, rfl⟩)
      · exact ⟨[], (c :: rest).drop p.length, by
          conv_lhs => rw [← List.take_append_drop p.length (c :: rest)]
          rw [htake]; simp⟩
      · exact ⟨c :: u, v, by simp⟩
    · rintro ⟨u, v, huv⟩
      cases u with
      | nil =>
        left
        simp only [List.nil_append] at huv
        rw [huv, List.take_left]
      | cons a u' =>
        right
        simp only [List.cons_append, List.cons.injEq] at huv
        exact ⟨u', v, huv.2⟩

/-- Claim C7: `plex_format` branches on the item's lowercased type and
returns exactly the documented shapes — season: parent title, ": Season ",
index; episode: grandparent title, ": Season ", parent index, ": Episode ",
the width-2 item index, " - ", item title; any other type: title, " (",
year, ")"; and on the concrete movie item Up (2009) it returns the string
"Up (2009)". -/
theorem c7_plex_format_shapes :
    (∀ item : MetadataItem, pyLower item.type = "season" →
      plex_format item = some ((item.parent.getD emptyParent).title.getD "Unknown"
        ++ ": Season " ++ pyOptIntStr item.index)) ∧
    (∀ (item : MetadataItem) (i : Int), pyLower item.type = "episode" →
      item.index = some i →
      plex_format item = some ((item.grandparent.getD emptyParent).title.getD "Unknown"
        ++ ": Season " ++ pyOptIntStr (item.parent.getD emptyParent).index
        ++ ": Episode " ++ pyFmt2d i ++ " - " ++ item.title)) ∧
    (∀ item : MetadataItem, pyLower item.type ≠ "season" →
      pyLower item.type ≠ "episode" →
      plex_format item = some (item.title ++ " (" ++ pyOptIntStr item.year ++ ")")) ∧
    plex_format upMovie = some "Up (2009)" := by
  refine ⟨?_, ?_, ?_, by decide⟩
  · intro item h
    simp [plex_format, h]
  · intro item i h hidx
    simp [plex_format, h, hidx]
  · intro item h1 h2
    simp [plex_format, h1, h2]

/-- Witness for C7 at a concrete season item (capitalised type exercises
the lowering). -/
theorem c7_plex_format_shapes_witness :
    plex_format ⟨"Season", "x", none, some 3, some ⟨some "ShowX", none⟩, none⟩ =
      some "ShowX: Season 3" :=
  c7_plex_format_shapes.1 ⟨"Season", "x", none, some 3, some ⟨some "ShowX", none⟩, none⟩
    (by decide)

/-- Counterexample to claim C6: on a fully populated episode item whose
parent (season) title is "Qzx", `plex_format` succeeds, but the produced
string does not contain the parent's title as a substring — the episode
branch prints the grandparent's title and the parent's *index*, never the
parent's title. -/
theorem c6_counterexample :
    plex_format pilotEpisode = some "Show: Season 2: Episode  1 - Pilot" ∧
    ¬ ∃ u v, "Show: Season 2: Episode  1 - Pilot".data = u ++ "Qzx".data ++ v := by
  refine ⟨by decide, ?_⟩
  rw [← occursIn_iff]
  decide

/-- Claim C6 (amended): `plex_format` is pure, and total except on the one
input class where the Python raises (an episode whose `index` is null, via
the `:2d` format spec); whenever it succeeds it produces a non-empty
string, and for episode entries the produced string includes the
grandparent's title (the parent's title does not appear; the parent
contributes only its index). -/
theorem c6_plex_format_total_nonempty (item : MetadataItem)
    (hidx : pyLower item.type = "episode" → item.index.isSome = true) :
    plex_format item ≠ none ∧
    ∀ s, plex_format item = some s → 0 < s.length ∧
      ∀ gp t, pyLower item.type = "episode" → item.grandparent = some gp →
        gp.title = some t → occursIn t.data s.data = true := by
  by_cases hseason : pyLower item.type = "season"
  · have hX : plex_format item = some ((item.parent.getD emptyParent).title.getD "Unknown"
        ++ ": Season " ++ pyOptIntStr item.index) := by
      simp [plex_format, hseason]
    refine ⟨by simp [hX], ?_⟩
    intro s hs
    rw [hX, Option.some.injEq] at hs
    subst hs
    refine ⟨?_, ?_⟩
    · simp only [String.length_append]
      have h9 : 0 < ": Season ".length := by decide
      omega
    · intro gp t hep
      rw [hseason] at hep
      exact absurd hep (by decide)
  · by_cases hep : pyLower item.type = "episode"
    · rcases Option.isSome_iff_exists.mp (hidx hep) with ⟨i, hi⟩
      have hX : plex_format item = some ((item.grandparent.getD emptyParent).title.getD "Unknown"
          ++ ": Season " ++ pyOptIntStr (item.parent.getD emptyParent).index
          ++ ": Episode " ++ pyFmt2d i ++ " - " ++ item.title) := by
        simp [plex_format, hseason, hep, hi]
      refine ⟨by simp [hX], ?_⟩
      intro s hs
      rw [hX, Option.some.injEq] at hs
      subst hs
      refine ⟨?_, ?_⟩
      · simp only [String.length_append]
        have h9 : 0 < ": Season ".length := by decide
        omega
      · intro gp t _ hgp ht
        rw [occursIn_iff]
        refine ⟨[], (": Season " ++ pyOptIntStr (item.parent.getD emptyParent).index
          ++ ": Episode " ++ pyFmt2d i ++ " - " ++ item.title).data, ?_⟩
        simp [hgp, ht, String.data_append, List.append_assoc]
    · have hX : plex_format item = some (item.title ++ " (" ++ pyOptIntStr item.year ++ ")") := by
        simp [plex_format, hseason, hep]
      refine ⟨by simp [hX], ?_⟩
      intro s hs
      rw [hX, Option.some.injEq] at hs
      subst hs
      refine ⟨?_, fun gp t h => absurd h hep⟩
      simp only [String.length_append]
      have h2 : 0 < " (".length := by decide
      omega

/-- Witness for the amended C6 at the concrete episode item. -/
theorem c6_plex_format_total_nonempty_witness :
    plex_format pilotEpisode ≠ none ∧
    (0 < "Show: Season 2: Episode  1 - Pilot".length ∧
      occursIn "Show".data "Show: Season 2: Episode  1 - Pilot".data = true) := by
  obtain ⟨h1, h2⟩ := c6_plex_format_total_nonempty pilotEpisode (by decide)
  obtain ⟨hlen, hsub⟩ := h2 "Show: Season 2: Episode  1 - Pilot" (by decide)
  exact ⟨h1, hlen, hsub ⟨some "Show", none⟩ "Show" (by decide) rfl rfl⟩

/-- Outcome of one underlying `account.query` attempt: the call either
raises an exception (`err`) or returns a value; `ret none` models a falsy
response (e.g. `None` or an empty body), `ret (some r)` a truthy one. -/
inductive QueryOut (R : Type) where
  | err : QueryOut R
  | ret : Option R → QueryOut R

/-- The truthy response delivered by an attempt, if any. -/
def QueryOut.truthy {R : Type} : QueryOut R → Option R
  | .ret (some r) => some r
  | _ => none

/-- The retry loop body of `community_query`: starting at attempt index
`i` with `n` attempts left, return the first truthy response; an exception
is caught (and logged) and a falsy response is skipped, both falling
through to the next attempt; return `None` when the attempts run out. -/
def community_query_go {R : Type} (att : Nat → QueryOut R) : Nat → Nat → Option R
  | _, 0 => none
  | i, n + 1 =>
    match (att i).truthy with
    | some r => some r
    | none => community_query_go att (i + 1) n

/-- Embedding of `community_query(account, params, retries, delay)`; the
attempt stream `att` stands for the successive outcomes of
`account.query(...)` for these params (`delay` is wall-clock sleeping,
which the embedding does not model). -/
def community_query {R : Type} (att : Nat → QueryOut R) (retries : Nat) : Option R :=
  community_query_go att 0 retries

/-- Spec-side characterisation: the first truthy response among the first
`retries` attempts, if any. -/
def firstTruthy {R : Type} (att : Nat → QueryOut R) (retries : Nat) : Option R :=
  (List.range retries).findSome? fun i => (att i).truthy

lemma findSome?_map {α β γ : Type} (g : α → β) (f : β → Option γ) (l : List α) :
    (l.map g).findSome? f = l.findSome? (fun a => f (g a)) := by
  induction l with
  | nil => rfl
  | cons a l ih =>
    simp only [List.map_cons, List.findSome?_cons]
    cases f (g a) <;> simp [ih]

lemma community_query_go_eq_findSome? {R : Type} (att : Nat → QueryOut R) :
    ∀ (n i : Nat),
      community_query_go att i n = (List.range n).findSome? fun j => (att (i + j)).truthy := by
  intro n
  induction n with
  | zero => intro i; rfl
  | succ n ih =>
    intro i
    rw [List.range_succ_eq_map]
    simp only [community_query_go, List.findSome?_cons, findSome?_map]
    cases h : (att i).truthy with
    | some r => simp [h]
    | none =>
      simp only [h, Nat.add_zero]
      rw [ih (i + 1)]
      congr 1
      funext j
      congr 2
      omega

/-- Claim C9: `community_query` never propagates an exception from the
underlying network call — every attempt outcome, including `err`, is
consumed by the total retry loop — and it makes at most `retries`
attempts, returns the response of the first attempt among them that
yields a truthy response, and returns `None` when no attempt does. -/
theorem c9_community_query_first_truthy {R : Type} (att : Nat → QueryOut R)
    (retries : Nat) :
    community_query att retries = firstTruthy att retries := by
  rw [community_query, firstTruthy, community_query_go_eq_findSome?]
  congr 1
  funext j
  rw [Nat.zero_add]

/-- The `pageInfo` object of one watch-history response (`hasNextPage`,
`endCursor`); cursors are opaque to the script, so the cursor type is a
parameter. -/
structure PageInfo (C : Type) where
  hasNextPage : Bool
  endCursor : Option C

/-- One `data.user.watchHistory` response: the page's node list and its
`pageInfo`.  Node contents are opaque to the pagination loop, so the
entry type is a parameter. -/
structure WatchHistoryPage (E C : Type) where
  nodes : List E
  pageInfo : PageInfo C

/-- The `while True:` body of `get_watch_history`, with fuel.  `fetch`
stands for `community_query` on the fixed params with the given `after`
cursor: it returns `none` exactly when all retries were exhausted (the
generator then reports the failure and breaks, keeping everything already
yielded).  Otherwise the page's nodes are yielded; the loop returns after
a page with no next page (or when `all_` is false), else it continues from
`endCursor`.  The `Bool` in the result records whether the sequence was
terminated by a reported fetch failure; `none` means the fuel ran out. -/
def get_watch_history_go {E C : Type} (fetch : Option C → Option (WatchHistoryPage E C))
    (all_ : Bool) : Nat → Option C → Option (List E × Bool)
  | 0, _ => none
  | fuel + 1, after =>
    match fetch after with
    | none => some ([], true)
    | some page =>
      if !all_ || !page.pageInfo.hasNextPage then
        some (page.nodes, false)
      else
        match get_watch_history_go fetch all_ fuel page.pageInfo.endCursor with
        | none => none
        | some (rest, e) => some (page.nodes ++ rest, e)

/-- Embedding of `get_watch_history(account)` as called by the script:
`after=None` initially and `all_=True`. -/
def get_watch_history {E C : Type} (fetch : Option C → Option (WatchHistoryPage E C))
    (fuel : Nat) : Option (List E × Bool) :=
  get_watch_history_go fetch true fuel none

/-- Page `i` of a mocked backend serving the given pages in order:
`hasNextPage` iff a page follows, `endCursor` pointing at the next page. -/
def pageAt {E : Type} (pages : List (List E)) (i : Nat) :
    Option (WatchHistoryPage E Nat) :=
  if h : i < pages.length then
    some ⟨pages.get ⟨i, h⟩, ⟨decide (i + 1 < pages.length), some (i + 1)⟩⟩
  else none

/-- A mocked always-successful paged backend: the initial `after=None`
fetch serves page 0, and the cursor handed out by page `i` serves page
`i + 1` via its literal index. -/
def pagesFetch {E : Type} (pages : List (List E)) :
    Option Nat → Option (WatchHistoryPage E Nat) :=
  fun c => pageAt pages (c.getD 0)

lemma get_watch_history_go_pagesFetch {E : Type} (pages : List (List E)) :
    ∀ (fuel : Nat) (c : Option Nat), c.getD 0 < pages.length →
      pages.length - c.getD 0 ≤ fuel →
      get_watch_history_go (pagesFetch pages) true fuel c =
        some ((pages.drop (c.getD 0)).flatten, false) := by
  intro fuel
  induction fuel with
  | zero => intro c hc hf; omega
  | succ fuel ih =>
    intro c hc hf
    have hfetch : pagesFetch pages c =
        some ⟨pages.get ⟨c.getD 0, hc⟩,
          ⟨decide (c.getD 0 + 1 < pages.length), some (c.getD 0 + 1)⟩⟩ := by
      rw [pagesFetch, pageAt, dif_pos hc]
    rw [get_watch_history_go, hfetch]
    by_cases hnext : c.getD 0 + 1 < pages.length
    · have ih' := ih (some (c.getD 0 + 1)) (by simpa using hnext) (by simp; omega)
      simp only [Option.getD_some] at ih'
      have hd : pages.drop (c.getD 0) =
          pages.get ⟨c.getD 0, hc⟩ :: pages.drop (c.getD 0 + 1) := by
        rw [List.drop_eq_getElem_cons hc]
        simp [List.get_eq_getElem]
      rw [hd, List.flatten_cons]
      simp [hnext, ih']
    · have hdrop : pages.drop (c.getD 0 + 1) = [] := List.drop_eq_nil_of_le (by omega)
      have hd : pages.drop (c.getD 0) = [pages.get ⟨c.getD 0, hc⟩] := by
        rw [List.drop_eq_getElem_cons hc, hdrop]
        simp [List.get_eq_getElem]
      rw [hd]
      simp [hnext]

/-- The spec's worked two-page backend: the initial fetch returns two
nodes with `hasNextPage = true` and cursor "c1"; fetching after "c1"
returns one node with `hasNextPage = false`. -/
def exampleFetch : Option String → Option (WatchHistoryPage Nat String)
  | none => some ⟨[1, 2], ⟨true, some "c1"⟩⟩
  | some c => if c = "c1" then some ⟨[3], ⟨false, none⟩⟩ else none

/-- Claim C1: over a mocked paged backend the entries emitted by
`get_watch_history` are exactly the concatenation of all pages' node
lists, in order (hence no duplicates and no drops); and on the spec's
two-page example with cursor "c1" the generator yields exactly the three
entries in order. -/
theorem c1_get_watch_history_concat :
    (∀ (pages : List (List Nat)) (fuel : Nat), 0 < pages.length →
      pages.length ≤ fuel →
      get_watch_history (pagesFetch pages) fuel = some (pages.flatten, false)) ∧
    get_watch_history exampleFetch 2 = some ([1, 2, 3], false) := by
  constructor
  · intro pages fuel hp hf
    have h := get_watch_history_go_pagesFetch pages fuel none (by simpa using hp)
      (by simpa using hf)
    simpa [get_watch_history] using h
  · decide

/-- Witness for C1 on a concrete two-page backend: page 1 is [10, 20],
page 2 is [30]; the generator emits [10, 20, 30]. -/
theorem c1_get_watch_history_concat_witness :
    get_watch_history (pagesFetch [[10, 20], [30]]) 2 = some ([10, 20, 30], false) :=
  (c1_get_watch_history_concat.1 [[10, 20], [30]] 2 (by decide) (by decide)).trans
    (by decide)

/-- If no attempt among the first `retries` yields a truthy response,
`community_query` returns `None`. -/
lemma community_query_eq_none {R : Type} (att : Nat → QueryOut R) (retries : Nat)
    (h : ∀ i, i < retries → (att i).truthy = none) :
    community_query att retries = none := by
  rw [community_query, community_query_go_eq_findSome?]
  apply List.findSome?_eq_none_iff.mpr
  intro i hi
  simp only [List.mem_range] at hi
  simpa using h i hi

/-- A mocked backend that serves the pages of `good` successfully (each
announcing a next page) and, at the cursor following the last good page,
answers through `community_query` over an attempt stream `att` — so a
fetch of that page really performs the retry loop of the code. -/
def goodThenFail (good : List (List Nat))
    (att : Nat → QueryOut (WatchHistoryPage Nat Nat)) :
    Option Nat → Option (WatchHistoryPage Nat Nat) :=
  fun c =>
    if h : c.getD 0 < good.length then
      some ⟨good.get ⟨c.getD 0, h⟩, ⟨true, some (c.getD 0 + 1)⟩⟩
    else
      community_query att 3

lemma get_watch_history_go_goodThenFail (good : List (List Nat))
    (att : Nat → QueryOut (WatchHistoryPage Nat Nat))
    (hatt : ∀ i, i < 3 → (att i).truthy = none) :
    ∀ (fuel : Nat) (c : Option Nat), good.length - c.getD 0 < fuel →
      get_watch_history_go (goodThenFail good att) true fuel c =
        some ((good.drop (c.getD 0)).flatten, true) := by
  intro fuel
  induction fuel with
  | zero => intro c hf; omega
  | succ fuel ih =>
    intro c hf
    by_cases hi : c.getD 0 < good.length
    · have hfetch : goodThenFail good att c =
          some ⟨good.get ⟨c.getD 0, hi⟩, ⟨true, some (c.getD 0 + 1)⟩⟩ := by
        rw [goodThenFail]; rw [dif_pos hi]
      rw [get_watch_history_go, hfetch]
      have ih' := ih (some (c.getD 0 + 1)) (by simp; omega)
      simp only [Option.getD_some] at ih'
      have hd : good.drop (c.getD 0) =
          good.get ⟨c.getD 0, hi⟩ :: good.drop (c.getD 0 + 1) := by
        rw [List.drop_eq_getElem_cons hi]
        simp [List.get_eq_getElem]
      rw [hd, List.flatten_cons]
      simp [ih']
    · have hfetch : goodThenFail good att c = none := by
        rw [goodThenFail, dif_neg hi]
        exact community_query_eq_none att 3 hatt
      rw [get_watch_history_go, hfetch]
      have hdrop : good.drop (c.getD 0) = [] := List.drop_eq_nil_of_le (by omega)
      simp [hdrop]

/-- Claim C3: fetching a page goes through `community_query`, which tries
the same request a bounded 3 times; when every attempt fails the query
returns `None`, whereupon the generator reports the failure and
terminates the emitted sequence (error flag `true`) — and every page it
received before the failing one is still emitted, none silently dropped. -/
theorem c3_fetch_retry_failure_keeps_pages
    (good : List (List Nat)) (att : Nat → QueryOut (WatchHistoryPage Nat Nat))
    (fuel : Nat) (hatt : ∀ i, i < 3 → (att i).truthy = none)
    (hf : good.length < fuel) :
    community_query att 3 = none ∧
    get_watch_history (goodThenFail good att) fuel = some (good.flatten, true) := by
  refine ⟨community_query_eq_none att 3 hatt, ?_⟩
  have h := get_watch_history_go_goodThenFail good att hatt fuel none (by simpa using hf)
  simpa [get_watch_history] using h

/-- Witness for C3: one good page [5, 6], then a page whose three attempts
all raise; the generator emits [5, 6] and flags the failure. -/
theorem c3_fetch_retry_failure_keeps_pages_witness :
    community_query (fun _ => (QueryOut.err : QueryOut (WatchHistoryPage Nat Nat))) 3
        = none ∧
    get_watch_history (goodThenFail [[5, 6]] (fun _ => QueryOut.err)) 2
        = some ([5, 6], true) := by
  have h := c3_fetch_retry_failure_keeps_pages [[5, 6]] (fun _ => QueryOut.err) 2
    (by intro i hi; rfl) (by decide)
  exact ⟨h.1, h.2.trans (by decide)⟩

/-- The retry loop body of `remove_watch_history`.  `cq` gives the result
of the `community_query` call made on each outer attempt, as the code
inspects it: `none` — the query exhausted its own retries and returned
`None` (the code logs and retries after a delay); `some none` — a truthy
response lacking `data.removeActivity` (invalid structure, retried);
`some (some b)` — a response carrying `data.removeActivity = b`, returned
immediately.  After `retries` attempts the function returns `False`. -/
def remove_go (cq : Nat → Option (Option Bool)) : Nat → Nat → Bool
  | _, 0 => false
  | i, n + 1 =>
    match cq i with
    | some (some b) => b
    | _ => remove_go cq (i + 1) n

/-- Embedding of `remove_watch_history(account, item, retries)`. -/
def remove_watch_history (cq : Nat → Option (Option Bool)) (retries : Nat) : Bool :=
  remove_go cq 0 retries

lemma remove_go_fail_step (cq : Nat → Option (Option Bool)) (n i : Nat)
    (h : ∀ b, cq i ≠ some (some b)) :
    remove_go cq i (n + 1) = remove_go cq (i + 1) n := by
  rw [remove_go]
  match hc : cq i with
  | none => rfl
  | some none => rfl
  | some (some b) => exact absurd hc (h b)

lemma remove_go_all_fail (cq : Nat → Option (Option Bool)) :
    ∀ (n i : Nat), (∀ k, k < n → ∀ b, cq (i + k) ≠ some (some b)) →
      remove_go cq i n = false := by
  intro n
  induction n with
  | zero => intro i _; rfl
  | succ n ih =>
    intro i h
    rw [remove_go_fail_step cq n i (by simpa using h 0 (by omega))]
    apply ih
    intro k hk b
    have := h (k + 1) (by omega) b
    rwa [show i + (k + 1) = i + 1 + k by omega] at this

lemma remove_go_first_definitive (cq : Nat → Option (Option Bool)) :
    ∀ (n i j : Nat) (b : Bool), j < n →
      (∀ k, k < j → ∀ b', cq (i + k) ≠ some (some b')) →
      cq (i + j) = some (some b) → remove_go cq i n = b := by
  intro n
  induction n with
  | zero => intro i j b hj _ _; omega
  | succ n ih =>
    intro i j b hj hfail hdef
    cases j with
    | zero =>
      rw [Nat.add_zero] at hdef
      rw [remove_go, hdef]
    | succ j =>
      rw [remove_go_fail_step cq n i (by simpa using hfail 0 (by omega))]
      refine ih (i + 1) j b (by omega) ?_ ?_
      · intro k hk b'
        have := hfail (k + 1) (by omega) b'
        rwa [show i + (k + 1) = i + 1 + k by omega] at this
      · rwa [show i + (j + 1) = i + 1 + j by omega] at hdef

/-- Claim C4: `remove_watch_history` treats an exhausted `community_query`
(`None`, i.e. network/transient failure) as retryable, for up to
`retries` outer attempts, but a response carrying `data.removeActivity`
— in particular the unambiguous not-found/failure answer
`removeActivity = False` — is returned immediately on whatever attempt it
arrives (the conclusion depends only on the attempts up to that point, so
such a response is never retried); if every attempt fails, the result is
`False`. -/
theorem c4_remove_watch_history_retry_classes :
    (∀ (cq : Nat → Option (Option Bool)) (retries : Nat) (b : Bool),
      0 < retries → cq 0 = some (some b) →
      remove_watch_history cq retries = b) ∧
    (∀ (cq : Nat → Option (Option Bool)) (retries j : Nat) (b : Bool),
      j < retries → (∀ k, k < j → cq k = none) → cq j = some (some b) →
      remove_watch_history cq retries = b) ∧
    (∀ (cq : Nat → Option (Option Bool)) (retries : Nat),
      (∀ k, k < retries → ∀ b, cq k ≠ some (some b)) →
      remove_watch_history cq retries = false) := by
  refine ⟨?_, ?_, ?_⟩
  · intro cq retries b hr h0
    exact remove_go_first_definitive cq retries 0 0 b hr (by omega) (by simpa using h0)
  · intro cq retries j b hj hfail hdef
    exact remove_go_first_definitive cq retries 0 j b hj
      (by intro k hk b'; simp [hfail k hk]) (by simpa using hdef)
  · intro cq retries h
    exact remove_go_all_fail cq retries 0 (by simpa using h)

/-- Witness for C4: the first attempt's query returns `None` (network
failure), the second delivers `removeActivity = False`; the call returns
`False` on the second of three attempts. -/
theorem c4_remove_watch_history_retry_classes_witness :
    remove_watch_history (fun k => if k = 0 then none else some (some false)) 3 = false :=
  c4_remove_watch_history_retry_classes.2.1
    (fun k => if k = 0 then none else some (some false)) 3 1 false
    (by omega) (by intro k hk; simp [Nat.lt_one_iff.mp hk]) rfl

/-- The inner `for entry in history:` loop of `delete_watch_history`: one
`remove_watch_history` call per entry, in order, with the call's return
value ignored — the loop always continues to the next entry.  `removeOne`
is the effect of one such call on the backend state.  The result is the
trace of entries a delete call was issued for, plus the final state. -/
def delete_sweep {σ E : Type} (removeOne : σ → E → Bool × σ) :
    σ → List E → List E × σ
  | s, [] => ([], s)
  | s, e :: es =>
    let r := removeOne s e
    let rest := delete_sweep removeOne r.2 es
    (e :: rest.1, rest.2)

/-- Embedding of `delete_watch_history(account)`, with fuel for the outer
`while True:` loop.  Each iteration materialises the full
`list(get_watch_history(account))` against the current backend state,
stops when it is empty, and otherwise issues one delete call per fetched
entry before re-fetching.  Returns the concatenated trace of all delete
calls and the final backend state; `none` means some loop's fuel ran
out. -/
def delete_watch_history {σ E C : Type}
    (fetch : σ → Option C → Option (WatchHistoryPage E C))
    (removeOne : σ → E → Bool × σ) (pageFuel : Nat) :
    Nat → σ → Option (List E × σ)
  | 0, _ => none
  | fuel + 1, s =>
    match get_watch_history (fetch s) pageFuel with
    | none => none
    | some (history, _) =>
      if history.isEmpty then some ([], s)
      else
        match delete_watch_history fetch removeOne pageFuel fuel
            (delete_sweep removeOne s history).2 with
        | none => none
        | some (tr, s') => some ((delete_sweep removeOne s history).1 ++ tr, s')

/-- Every entry of the fetched history receives exactly one delete call,
regardless of the calls' results. -/
lemma delete_sweep_trace {σ E : Type} (removeOne : σ → E → Bool × σ) :
    ∀ (h : List E) (s : σ), (delete_sweep removeOne s h).1 = h := by
  intro h
  induction h with
  | nil => intro s; rfl
  | cons e es ih => intro s; simp [delete_sweep, ih]

/-- A stateful mocked backend whose state is the list of remaining
entries, served in pages of `k` nodes: the cursor handed out by page `i`
requests page `i + 1`. -/
def chunkFetch (k : Nat) (s : List Nat) :
    Option Nat → Option (WatchHistoryPage Nat Nat) :=
  fun c =>
    some ⟨(s.drop (c.getD 0 * k)).take k,
      ⟨decide ((c.getD 0 + 1) * k < s.length), some (c.getD 0 + 1)⟩⟩

/-- A delete mutation that really removes the entry from the backend
state and reports whether it was present. -/
def honestRemove (s : List Nat) (e : Nat) : Bool × List Nat :=
  (s.contains e, s.erase e)

lemma get_watch_history_go_chunkFetch (k : Nat) (s : List Nat) (hk : 0 < k) :
    ∀ (fuel : Nat) (c : Option Nat), 0 < fuel →
      s.length ≤ c.getD 0 * k + fuel * k →
      get_watch_history_go (chunkFetch k s) true fuel c =
        some (s.drop (c.getD 0 * k), false) := by
  intro fuel
  induction fuel with
  | zero => intro c h0 _; omega
  | succ fuel ih =>
    intro c _ hf
    rw [get_watch_history_go, chunkFetch]
    have e1 : (c.getD 0 + 1) * k = c.getD 0 * k + k := by ring
    have e2 : (fuel + 1) * k = fuel * k + k := by ring
    rw [e2] at hf
    by_cases hnext : (c.getD 0 + 1) * k < s.length
    · have hfuel0 : 0 < fuel := by
        rcases Nat.eq_zero_or_pos fuel with h0 | h0
        · exfalso
          subst h0
          rw [e1] at hnext
          simp only [Nat.zero_mul, Nat.zero_add] at hf
          omega
        · exact h0
      have ih' := ih (some (c.getD 0 + 1)) hfuel0 (by
        simp only [Option.getD_some]
        rw [e1]
        omega)
      simp only [Option.getD_some] at ih'
      have hdd : s.drop ((c.getD 0 + 1) * k) = (s.drop (c.getD 0 * k)).drop k := by
        rw [List.drop_drop, e1]
      rw [hdd] at ih'
      simp [hnext, ih']
    · simp only [hnext, decide_False, Bool.not_false, Bool.or_true, if_true]
      have hle : s.length ≤ c.getD 0 * k + k := by
        rw [e1] at hnext
        omega
      have htake : (s.drop (c.getD 0 * k)).take k = s.drop (c.getD 0 * k) := by
        apply List.take_of_length_le
        rw [List.length_drop]
        omega
      rw [htake]

/-- Sweeping the freshly fetched history against the honest backend
deletes every entry: the trace is the whole history and the remaining
state is empty. -/
lemma delete_sweep_honest (l : List Nat) :
    delete_sweep honestRemove l l = (l, []) := by
  induction l with
  | nil => rfl
  | cons a t ih =>
    simp [delete_sweep, honestRemove, List.erase_cons_head, ih]

/-- Against the honest chunked backend, delete-all terminates in two
outer iterations: the first sweep deletes the full history, the second
fetch comes back empty. -/
lemma delete_watch_history_honest (k pf : Nat) (s : List Nat)
    (hk : 0 < k) (hpf : 0 < pf) (hlen : s.length ≤ pf * k) :
    ∀ fuel, 2 ≤ fuel →
      delete_watch_history (chunkFetch k) honestRemove pf fuel s = some (s, []) := by
  intro fuel hfuel
  obtain ⟨f1, rfl⟩ : ∃ f1, fuel = f1 + 1 := ⟨fuel - 1, by omega⟩
  obtain ⟨f2, rfl⟩ : ∃ f2, f1 = f2 + 1 := ⟨f1 - 1, by omega⟩
  have hfetch0 : get_watch_history (chunkFetch k []) pf = some ([], false) := by
    have h := get_watch_history_go_chunkFetch k [] hk pf none hpf (by simp)
    simpa [get_watch_history] using h
  cases s with
  | nil =>
    rw [delete_watch_history, hfetch0]
    rfl
  | cons a t =>
    have hfetch : get_watch_history (chunkFetch k (a :: t)) pf =
        some (a :: t, false) := by
      have h := get_watch_history_go_chunkFetch k (a :: t) hk pf none hpf
        (by simpa using hlen)
      simpa [get_watch_history] using h
    rw [delete_watch_history, hfetch]
    have hrec : delete_watch_history (chunkFetch k) honestRemove pf (f2 + 1) [] =
        some ([], []) := by
      rw [delete_watch_history, hfetch0]
      rfl
    simp [delete_sweep_honest (a :: t), hrec]

/-- Counterexample to claim C2: with three entries served in pages of
two, one outer iteration of `delete_watch_history` materialises the FULL
history [1, 2, 3] — already including entry 3 from the second page — and
issues delete calls for all three of them, whereas the first page holds
only [1, 2].  The code's `list(get_watch_history(account))` pages through
the entire history, it does not fetch only the current first page. -/
theorem c2_counterexample :
    get_watch_history (chunkFetch 2 [1, 2, 3]) 2 = some ([1, 2, 3], false) ∧
    (chunkFetch 2 [1, 2, 3] none).map (fun p => p.nodes) = some [1, 2] ∧
    delete_watch_history (chunkFetch 2) honestRemove 2 2 [1, 2, 3] =
      some ([1, 2, 3], []) ∧
    [1, 2, 3] ≠ [1, 2] := by
  refine ⟨by decide, by decide, by decide, by decide⟩

/-- Claim C2 (amended): `delete_watch_history` repeatedly fetches the
ENTIRE current history (all pages, not only the first), deletes each
fetched entry in sequence, and stops when a fetch returns zero entries:
against the honest multi-page backend one full sweep deletes everything
and the following (empty) fetch terminates the loop.  (The code sleeps
only between pages and on retry paths; inter-delete delays on the success
path are wall-clock behaviour outside this embedding.) -/
theorem c2_delete_all_full_refetch (k pf fuel : Nat) (s : List Nat)
    (hk : 0 < k) (_hmulti : k < s.length) (hpf : 0 < pf)
    (hlen : s.length ≤ pf * k) (hfuel : 2 ≤ fuel) :
    get_watch_history (chunkFetch k s) pf = some (s, false) ∧
    delete_watch_history (chunkFetch k) honestRemove pf fuel s = some (s, []) := by
  constructor
  · have h := get_watch_history_go_chunkFetch k s hk pf none hpf (by simpa using hlen)
    simpa [get_watch_history] using h
  · exact delete_watch_history_honest k pf s hk hpf hlen fuel hfuel

/-- Witness for the amended C2: three entries in pages of two. -/
theorem c2_delete_all_full_refetch_witness :
    get_watch_history (chunkFetch 2 [1, 2, 3]) 2 = some ([1, 2, 3], false) ∧
    delete_watch_history (chunkFetch 2) honestRemove 2 2 [1, 2, 3] =
      some ([1, 2, 3], []) :=
  c2_delete_all_full_refetch 2 2 2 [1, 2, 3] (by decide) (by decide) (by decide)
    (by decide) (by decide)

/-- Claim C8: against a mocked backend holding `N = s.length` entries
across two pages (page size `k`, with `k < N ≤ 2k`) whose entries are
really removed by successful delete mutations, `delete_watch_history`
terminates and its delete-call trace is exactly the `N` entries — one
delete call per entry, so exactly `N` calls (retries inside a single
`remove_watch_history` call are not separate delete calls in this
count). -/
theorem c8_delete_all_n_calls (k pf fuel : Nat) (s : List Nat)
    (hk : 0 < k) (_hpage1 : k < s.length) (_hpage2 : s.length ≤ 2 * k)
    (hpf : 0 < pf) (hlen : s.length ≤ pf * k) (hfuel : 2 ≤ fuel) :
    delete_watch_history (chunkFetch k) honestRemove pf fuel s = some (s, []) ∧
    (delete_watch_history (chunkFetch k) honestRemove pf fuel s).map
      (fun r => r.1.length) = some s.length := by
  have h := delete_watch_history_honest k pf s hk hpf hlen fuel hfuel
  exact ⟨h, by rw [h]; rfl⟩

/-- Witness for C8: N = 3 entries in two pages of size 2; exactly 3
delete calls are issued and the run terminates. -/
theorem c8_delete_all_n_calls_witness :
    delete_watch_history (chunkFetch 2) honestRemove 2 2 [1, 2, 3] =
      some ([1, 2, 3], []) ∧
    (delete_watch_history (chunkFetch 2) honestRemove 2 2 [1, 2, 3]).map
      (fun r => r.1.length) = some 3 :=
  c8_delete_all_n_calls 2 2 2 [1, 2, 3] (by decide) (by decide) (by decide)
    (by decide) (by decide) (by decide)

/-- Claim C5: when every one of the `retries` attempts of a delete call
fails (its `community_query` keeps returning `None`), the call returns
`False` — it is a total function of the attempt outcomes, it does not
raise — and the enclosing sweep still issues a delete call for every
remaining entry: the sweep's trace is the whole history no matter what
the individual calls return. -/
theorem c5_remove_failure_does_not_abort :
    (∀ (cq : Nat → Option (Option Bool)) (retries : Nat),
      (∀ k, k < retries → cq k = none) →
      remove_watch_history cq retries = false) ∧
    (∀ (σ E : Type) (removeOne : σ → E → Bool × σ) (s : σ) (h : List E),
      (delete_sweep removeOne s h).1 = h) := by
  constructor
  · intro cq retries h
    exact remove_go_all_fail cq retries 0 (by intro k hk b; simp [h k hk])
  · intro σ E removeOne s h
    exact delete_sweep_trace removeOne h s

/-- Witness for C5: three attempts all returning `None` yield `False`,
and a sweep over [1, 2, 3] with an always-failing delete still issues all
three delete calls. -/
theorem c5_remove_failure_does_not_abort_witness :
    remove_watch_history (fun _ => none) 3 = false ∧
    (delete_sweep (fun (s : Nat) (_ : Nat) => (false, s)) 0 [1, 2, 3]).1 =
      [1, 2, 3] :=
  ⟨c5_remove_failure_does_not_abort.1 (fun _ => none) 3 (fun _ _ => rfl),
    c5_remove_failure_does_not_abort.2 Nat Nat (fun s _ => (false, s)) 0 [1, 2, 3]⟩

/-- A backend that ignores its state and always serves the same single
page of entries `h` (no next page). -/
def constFetch (h : List Nat) : Unit → Option Nat → Option (WatchHistoryPage Nat Nat) :=
  fun _ _ => some ⟨h, ⟨false, none⟩⟩

/-- A delete mutation that always fails and never changes the backend. -/
def noopRemove : Unit → Nat → Bool × Unit :=
  fun s _ => (false, s)

lemma delete_watch_history_const_none (h : List Nat) (pf : Nat)
    (hne : h ≠ []) (hpf : 0 < pf) :
    ∀ fuel, delete_watch_history (constFetch h) noopRemove pf fuel () = none := by
  have hg : get_watch_history (constFetch h ()) pf = some (h, false) := by
    obtain ⟨q, rfl⟩ : ∃ q, pf = q + 1 := ⟨pf - 1, by omega⟩
    rw [get_watch_history, get_watch_history_go]
    simp [constFetch]
  have hemp : h.isEmpty = false := by
    cases h with
    | nil => exact absurd rfl hne
    | cons _ _ => rfl
  intro fuel
  induction fuel with
  | zero => rfl
  | succ fuel ih =>
    rw [delete_watch_history, hg]
    have hu : (delete_sweep noopRemove () h).2 = () := rfl
    simp [hemp, hu, ih]

lemma delete_watch_history_some_imp_empty_fetch {σ E C : Type}
    (fetch : σ → Option C → Option (WatchHistoryPage E C))
    (removeOne : σ → E → Bool × σ) (pf : Nat) :
    ∀ (fuel : Nat) (s : σ) (tr : List E) (s' : σ),
      delete_watch_history fetch removeOne pf fuel s = some (tr, s') →
      ∃ e, get_watch_history (fetch s') pf = some ([], e) := by
  intro fuel
  induction fuel with
  | zero => intro s tr s' h; exact Option.noConfusion h
  | succ fuel ih =>
    intro s tr s' h
    rw [delete_watch_history] at h
    cases hg : get_watch_history (fetch s) pf with
    | none => rw [hg] at h; exact Option.noConfusion h
    | some p =>
      obtain ⟨hist, er⟩ := p
      rw [hg] at h
      dsimp only at h
      by_cases hemp : hist.isEmpty
      · rw [if_pos hemp] at h
        simp only [Option.some.injEq, Prod.mk.injEq] at h
        obtain ⟨-, h2⟩ := h
        subst h2
        refine ⟨er, ?_⟩
        rw [hg, List.isEmpty_iff.mp hemp]
      · rw [if_neg hemp] at h
        cases hr : delete_watch_history fetch removeOne pf fuel
            (delete_sweep removeOne s hist).2 with
        | none => rw [hr] at h; exact Option.noConfusion h
        | some q =>
          obtain ⟨tr2, s2⟩ := q
          rw [hr] at h
          simp only [Option.some.injEq, Prod.mk.injEq] at h
          obtain ⟨-, h2⟩ := h
          subst h2
          exact ih _ tr2 _ hr

/-- Claim C10: the outer loop of `delete_watch_history` terminates only
when some fetch of the history returns an empty list — whenever a run
completes, the last fetch (against the final state) is empty — and
against a backend that keeps returning the same non-empty history (e.g.
because every delete fails without removing anything), the `while True:`
loop never terminates: the run is `none` for every amount of fuel. -/
theorem c10_delete_all_termination :
    (∀ (h : List Nat) (pf fuel : Nat), h ≠ [] → 0 < pf →
      delete_watch_history (constFetch h) noopRemove pf fuel () = none) ∧
    (∀ (σ E C : Type) (fetch : σ → Option C → Option (WatchHistoryPage E C))
      (removeOne : σ → E → Bool × σ) (pf fuel : Nat) (s : σ) (tr : List E) (s' : σ),
      delete_watch_history fetch removeOne pf fuel s = some (tr, s') →
      ∃ e, get_watch_history (fetch s') pf = some ([], e)) := by
  constructor
  · intro h pf fuel hne hpf
    exact delete_watch_history_const_none h pf hne hpf fuel
  · intro σ E C fetch removeOne pf fuel s tr s' hrun
    exact delete_watch_history_some_imp_empty_fetch fetch removeOne pf fuel s tr s' hrun

/-- Witness for C10: a constant single-entry history with always-failing
deletes never terminates, even with plenty of fuel. -/
theorem c10_delete_all_termination_witness :
    delete_watch_history (constFetch [7]) noopRemove 1 5 () = none :=
  c10_delete_all_termination.1 [7] 1 5 (by decide) (by decide)
